import Mathlib

/-!
Verification development for the lcapy circuit-analysis core.

The definitions below are a shallow embedding of two source files:

* `lcapy/nodalanalysis.py` — nodal analysis: node-voltage unknowns
  (`NodalAnalysis._make_unknowns`), per-node KCL / voltage-source equations
  (`NodalAnalysis._make_equations`), and the matrix-form guard
  (`NodalAnalysis.equations`).
* `lcapy/schematic.py` — layout engine: common-node classes (`Cnodes`),
  the directed layout graphs (`Graph`, `Graphs`), the memoized longest-path
  computation (`Graph.longest_path`), position centering
  (`Schematic._make_graphs`), and option parsing with direction/size
  defaults (`Opts._parse`, `Schematic.parse`).

Symbolic expressions are opaque in the source (sympy-backed); they are
embedded as a syntax tree `SExpr` with opaque constructors for the injected
per-component equation generators (`i_equation`, `v_equation`).  Python
dictionaries are embedded as association lists (insertion order kept where
the source iterates over it); Python's bounded recursion is embedded with an
explicit fuel parameter.  Python floats used for layout sizes carry only
small dyadic values in the properties considered here, so they are embedded
as rationals.
-/

/-- Association-list lookup, mirroring Python `dict` access (first matching
key wins; keys are unique in all uses below). -/
def lookupA {α β : Type} [DecidableEq α] : List (α × β) → α → Option β
  | [], _ => none
  | p :: ps, k => if p.1 = k then some p.2 else lookupA ps k

/-- Association-list update, mirroring Python `dict` assignment: replace the
value of an existing key in place, otherwise append the new key. -/
def setKeyA {α β : Type} [DecidableEq α] (es : List (α × β)) (k : α) (v : β) :
    List (α × β) :=
  if es.any (fun p => p.1 = k) then
    es.map (fun p => if p.1 = k then (k, v) else p)
  else es ++ [(k, v)]

/-- Key-membership test for association lists (Python `key in dict`). -/
def hasKeyA {α β : Type} [DecidableEq α] (es : List (α × β)) (k : α) : Bool :=
  es.any (fun p => p.1 = k)

/-- Decidable equality of `Except` results, so that concrete runs of the
embedded functions can be checked by `decide`. -/
instance {ε α : Type} [DecidableEq ε] [DecidableEq α] :
    DecidableEq (Except ε α) := fun x y =>
  match x, y with
  | .error a, .error b =>
    if h : a = b then .isTrue (by rw [h])
    else .isFalse (fun hc => h (by injection hc))
  | .error _, .ok _ => .isFalse (fun hc => Except.noConfusion hc)
  | .ok _, .error _ => .isFalse (fun hc => Except.noConfusion hc)
  | .ok a, .ok b =>
    if h : a = b then .isTrue (by rw [h])
    else .isFalse (fun hc => h (by injection hc))

/-- Exact rational numbers used to model the Python floats of the layout
engine (all float values reached in the properties below are small dyadic
numbers, which floats represent exactly).  A bespoke structure is used,
with arithmetic that normalizes through `Nat.gcd`, so that concrete layout
computations reduce inside the kernel. -/
structure QR : Type where
  num : Int
  den : Nat
deriving DecidableEq

/-- Reduce a fraction to lowest terms. -/
def QR.normalize (n : Int) (d : Nat) : QR :=
  let g := Nat.gcd n.natAbs d
  if g = 0 then ⟨n, d⟩ else ⟨n / (g : Int), d / g⟩

instance : OfNat QR n :=
  ⟨⟨Int.ofNat n, 1⟩⟩

instance : Neg QR :=
  ⟨fun a => ⟨-a.num, a.den⟩⟩

instance : Add QR :=
  ⟨fun a b => QR.normalize (a.num * (b.den : Int) + b.num * (a.den : Int))
    (a.den * b.den)⟩

instance : Sub QR :=
  ⟨fun a b => a + (-b)⟩

instance : Mul QR :=
  ⟨fun a b => QR.normalize (a.num * b.num) (a.den * b.den)⟩

instance : LT QR :=
  ⟨fun a b => a.num * (b.den : Int) < b.num * (a.den : Int)⟩

instance (a b : QR) : Decidable (a < b) :=
  inferInstanceAs (Decidable (a.num * (b.den : Int) < b.num * (a.den : Int)))

/-- Python `max` on two values: the second argument wins only when it is
strictly larger. -/
instance : Max QR :=
  ⟨fun a b => if a < b then b else a⟩

/-- The float literal `0.5` of the centering step. -/
def QR.half : QR := ⟨1, 2⟩

/-- Python `name.startswith('*')`, computed on the character list so that
concrete instances reduce inside the kernel. -/
def startsWithStar (s : String) : Bool :=
  match s.data with
  | c :: _ => c = '*'
  | [] => false

/-- Python `str.split(sep)` for a one-character separator, on character
lists: split at every occurrence, keeping empty pieces. -/
def splitChar (c : Char) : List Char → List (List Char)
  | [] => [[]]
  | d :: ds =>
    let r := splitChar c ds
    if d = c then [] :: r
    else
      match r with
      | [] => [[d]]
      | g :: gs => (d :: g) :: gs

/-- Python `str.strip()`: drop leading and trailing whitespace. -/
def trimChars (cs : List Char) : List Char :=
  ((cs.dropWhile Char.isWhitespace).reverse.dropWhile
    Char.isWhitespace).reverse

/-- Python `sep.join(pieces)` for a one-character separator. -/
def interChar (c : Char) : List (List Char) → List Char
  | [] => []
  | [g] => g
  | g :: gs => g ++ c :: interChar c gs

/-! ## Symbolic expressions for nodal analysis -/

/-- Opaque symbolic expressions, as far as `_make_unknowns` and
`_make_equations` build them: the int literal `0`, the unknown node-voltage
symbol for a node, `Current(0).select(kind)`, the injected per-component
generators `cpt.v_equation(0, kind)` and `cpt.i_equation(arg, kind)`
(identified by component name), and the `+` / `-` operators. -/
inductive SExpr : Type where
  | zero : SExpr
  | y : String → SExpr
  | cur0 : SExpr
  | vEq : String → SExpr
  | iEq : String → SExpr → SExpr
  | add : SExpr → SExpr → SExpr
  | sub : SExpr → SExpr → SExpr
deriving DecidableEq

/-- A netlist element as `_make_equations` sees it: `elt.name`, `elt.type`
(one-letter type tag) and `elt.nodenames`. -/
structure Elt : Type where
  name : String
  type : String
  nodenames : List String
deriving DecidableEq

/-- Structured rendering of the exceptions `_make_equations` can raise:
the two `ValueError`s of the KCL loop (carrying the data interpolated into
their messages), plus dictionary `KeyError` and list `IndexError`. -/
inductive NAError : Type where
  | tooFewNodes : String → NAError
  | wrongNode : String → String → NAError
  | keyError : String → NAError
  | indexError : String → NAError
deriving DecidableEq

/-- `NodalAnalysis._make_unknowns`: walk `cct.node_list`, skip dummy nodes
(prefix `*`), bind `0` to the zero constant and every other node to its
voltage symbol. -/
def make_unknowns (node_list : List String) : List (String × SExpr) :=
  node_list.filterMap (fun node =>
    if startsWithStar node then none
    else if node = "0" then some (node, SExpr.zero)
    else some (node, SExpr.y node))

/-- The body of the KCL loop of `_make_equations` for one element: check the
terminal count, map both terminals through `node_map`, orient the terminal
pair so the traversed node comes first, and add the element's
`i_equation` of the voltage difference to the running sum.  Raises exactly
where the Python raises. -/
def kclStep (node_map : String → String) (ydict : String → Option SExpr)
    (node : String) (acc : SExpr) (elt : Elt) : Except NAError SExpr :=
  if elt.nodenames.length < 2 then .error (.tooFewNodes elt.name)
  else
    match elt.nodenames.get? 0, elt.nodenames.get? 1 with
    | some a, some b =>
      let m1 := node_map a
      let m2 := node_map b
      if node = m1 then
        match ydict m1, ydict m2 with
        | some y1, some y2 =>
            .ok (SExpr.add acc (SExpr.iEq elt.name (SExpr.sub y1 y2)))
        | none, _ => .error (.keyError m1)
        | some _, none => .error (.keyError m2)
      else if node = m2 then
        match ydict m2, ydict m1 with
        | some y1, some y2 =>
            .ok (SExpr.add acc (SExpr.iEq elt.name (SExpr.sub y1 y2)))
        | none, _ => .error (.keyError m2)
        | some _, none => .error (.keyError m1)
      else .error (.wrongNode elt.name node)
    | _, _ => .error (.indexError elt.name)

/-- The per-node body of `NodalAnalysis._make_equations`: if some connected
element has type `V`, emit the pinning pair from the first one
(`lhs = ydict[node_map[nodenames[0]]]`,
`rhs = ydict[node_map[nodenames[1]]] + v_equation(0, kind)`); otherwise fold
the KCL step over the connected elements starting from
`Current(0).select(kind)` and pair the sum with the literal `0`. -/
def node_equation (connected : String → List Elt) (node_map : String → String)
    (ydict : String → Option SExpr) (node : String) :
    Except NAError (SExpr × SExpr) :=
  let conns := connected node
  match conns.filter (fun e => e.type = "V") with
  | elt :: _ =>
    match elt.nodenames.get? 0, elt.nodenames.get? 1 with
    | some a, some b =>
      let n1 := node_map a
      let n2 := node_map b
      match ydict n1 with
      | none => .error (.keyError n1)
      | some y1 =>
        match ydict n2 with
        | none => .error (.keyError n2)
        | some y2 => .ok (y1, SExpr.add y2 (SExpr.vEq elt.name))
    | _, _ => .error (.indexError elt.name)
  | [] =>
    match conns.foldlM (kclStep node_map ydict node) SExpr.cur0 with
    | .ok result => .ok (result, SExpr.zero)
    | .error err => .error err

/-- One iteration of the node loop of `_make_equations`: skip the
reference node `0` and dummy nodes (prefix `*`), otherwise append the
node's equation, propagating any exception. -/
def meStep (connected : String → List Elt) (node_map : String → String)
    (ydict : String → Option SExpr)
    (acc : List (String × (SExpr × SExpr))) (node : String) :
    Except NAError (List (String × (SExpr × SExpr))) :=
  if node = "0" then .ok acc
  else if startsWithStar node then .ok acc
  else
    match node_equation connected node_map ydict node with
    | .ok pair => .ok (acc ++ [(node, pair)])
    | .error e => .error e

/-- `NodalAnalysis._make_equations`: one equation per graph node, skipping
the reference node `0` and dummy nodes (prefix `*`); any exception from a
node's equation aborts the whole construction. -/
def make_equations (g_nodes : List String) (connected : String → List Elt)
    (node_map : String → String) (ydict : String → Option SExpr) :
    Except NAError (List (String × (SExpr × SExpr))) :=
  g_nodes.foldlM (meStep connected node_map ydict) []

/-- The `ydict` of a `NodalAnalysis` instance, as `__init__` builds it from
`cct.node_list`. -/
def ydict_of (node_list : List String) : String → Option SExpr :=
  fun n => lookupA (make_unknowns node_list) n

/-- The `self.kind` normalization of `NodalAnalysis.__init__`: kind `super`
is replaced by `time`. -/
def na_init_kind (cct_kind : String) : String :=
  if cct_kind = "super" then "time" else cct_kind

/-- `NodalAnalysis._analyse`: its first statement evaluates
`self.equations_dict.values()`.  `equations_dict` is a plain method, not a
property, so the attribute access yields the bound method without calling
it (contrast `nodal_equations`, which correctly calls
`self.equations_dict()`), and `.values()` on a method object raises
`AttributeError` unconditionally, before the symbolic solver is ever
reached.  `α` is the type the matrix system would have had. -/
def na_analyse (α : Type) : Except String α :=
  .error "AttributeError: instancemethod object has no attribute values"

/-- `NodalAnalysis.equations`: refuse matrix form in the time domain with
the dedicated `ValueError`, otherwise delegate to `_analyse` — which
itself always raises (see `na_analyse`). -/
def na_equations (α : Type) (self_kind : String) : Except String α :=
  if self_kind = "time" then
    .error "Cannot put time domain equations into matrix form"
  else na_analyse α

/-- `NodalAnalysis` construction followed by `equations()`: the constructor
normalizes the kind, `equations` checks it. -/
def na_equations_of (α : Type) (cct_kind : String) : Except String α :=
  na_equations α (na_init_kind cct_kind)

/-! ## Statement-side helpers for the KCL claims -/

/-- The construction error the KCL loop raises for a malformed element, if
any: too few terminals, or neither mapped terminal equal to the traversed
node.  Mirrors the order of the checks in the loop body. -/
def kclError (node_map : String → String) (node : String) (e : Elt) :
    Option NAError :=
  if e.nodenames.length < 2 then some (.tooFewNodes e.name)
  else
    let m1 := node_map (e.nodenames.getD 0 "")
    let m2 := node_map (e.nodenames.getD 1 "")
    if node = m1 ∨ node = m2 then none
    else some (.wrongNode e.name node)

/-- The signed branch-current term one incident element contributes to the
KCL sum at `node`: the element's `i_equation` applied to the voltage of the
terminal facing `node` minus the voltage of the other terminal. -/
def kclTerm (node_map : String → String) (ydict : String → Option SExpr)
    (node : String) (e : Elt) : SExpr :=
  let m1 := node_map (e.nodenames.getD 0 "")
  let m2 := node_map (e.nodenames.getD 1 "")
  if node = m1 then
    SExpr.iEq e.name (SExpr.sub ((ydict m1).getD SExpr.zero)
      ((ydict m2).getD SExpr.zero))
  else
    SExpr.iEq e.name (SExpr.sub ((ydict m2).getD SExpr.zero)
      ((ydict m1).getD SExpr.zero))

/-- The KCL sum stated directly from the claim: one signed branch-current
term per incident element, summed onto the zero current constant. -/
def kclSum (node_map : String → String) (ydict : String → Option SExpr)
    (node : String) (l : List Elt) : SExpr :=
  l.foldl (fun acc e => SExpr.add acc (kclTerm node_map ydict node e))
    SExpr.cur0

/-- Flatten an expression into the list of summands of its outermost sum. -/
def summands : SExpr → List SExpr
  | .add a b => summands a ++ summands b
  | e => [e]

/-! ## Common-node classes (`Cnodes`) -/

/-- `Cnodes`: a dictionary mapping each node name to the tuple of node names
it shares a position with.  `nodes` records the dictionary's key set
(`Cnodes.__init__` creates one singleton class per node); `val` is the
stored class tuple. -/
structure Cnodes : Type where
  nodes : List String
  val : String → List String

/-- `Cnodes.__init__`: every node starts in its own singleton class. -/
def Cnodes.init (ns : List String) : Cnodes :=
  ⟨ns, fun n => [n]⟩

/-- `Cnodes.link`: concatenate the two classes and store the new tuple for
every member.  The source runs two loops; the second iterates over the
current `self[n2]`, which the first loop may already have rewritten, and
both write the same concatenated tuple. -/
def Cnodes.link (cn : Cnodes) (n1 n2 : String) : Cnodes :=
  let s1 := cn.val n1
  let s2 := cn.val n2
  let newset := s1 ++ s2
  let v1 : String → List String := fun n => if n ∈ s1 then newset else cn.val n
  let s2' := v1 n2
  ⟨cn.nodes, fun n => if n ∈ s2' then newset else v1 n⟩

/-- The representation invariant of `Cnodes`: every key is a member of its
own class, and all members of a class are keys storing that same class. -/
def Cnodes.Inv (cn : Cnodes) : Prop :=
  ∀ n ∈ cn.nodes, n ∈ cn.val n ∧
    ∀ m ∈ cn.val n, m ∈ cn.nodes ∧ cn.val m = cn.val n

instance (cn : Cnodes) : Decidable cn.Inv :=
  inferInstanceAs (Decidable (∀ n ∈ cn.nodes, n ∈ cn.val n ∧
    ∀ m ∈ cn.val n, m ∈ cn.nodes ∧ cn.val m = cn.val n))

/-! ## Layout graphs -/

/-- A key of the layout-graph dictionaries: either the synthetic `start`
key, or a common-node-set tuple used as a graph node. -/
inductive GNode : Type where
  | start : GNode
  | rep : List String → GNode
deriving DecidableEq

/-- The adjacency entries of a layout graph: for each key, the list of
`(parent, minimum size)` pairs `Graph.longest_path` reads. -/
abbrev GEntries : Type := List (GNode × List (GNode × QR))

/-- A layout `Graph`: its diagnostic name and its dictionary. -/
structure Graph : Type where
  name : String
  entries : GEntries
deriving DecidableEq

/-- Create a dictionary key with an empty entry list if absent
(the `if n not in self` lines of `Graph.add`). -/
def ensureKey (es : GEntries) (n : GNode) : GEntries :=
  if es.any (fun p => p.1 = n) then es else es ++ [(n, [])]

/-- Append one `(parent, size)` pair to the entry list of key `k`. -/
def appendEntry (es : GEntries) (k : GNode) (e : GNode × QR) : GEntries :=
  es.map (fun p => if p.1 = k then (p.1, p.2 ++ [e]) else p)

/-- `Graph.add`: size `0` is ignored; both endpoints become keys; a negative
size stores the reversed pair with the size negated, a positive size stores
`(n2, size)` under `n1`. -/
def Graph.add (g : Graph) (n1 n2 : GNode) (size : QR) : Graph :=
  if size = 0 then g
  else
    let es := ensureKey (ensureKey g.entries n1) n2
    if size < 0 then ⟨g.name, appendEntry es n2 (n1, -size)⟩
    else ⟨g.name, appendEntry es n1 (n2, size)⟩

/-- Memo dictionary of the longest-path recursion. -/
abbrev Memo : Type := List (GNode × QR)

/-- Failures of `Graph.longest_path`: the missing-start `ValueError`, the
"dodgy schematic graph" `RuntimeError`, recursion-limit exhaustion
(Python's `RecursionError`, re-raised as the dodgy error by
`longest_path`), and dictionary `KeyError`. -/
inductive LPErr : Type where
  | noStart : String → LPErr
  | dodgy : String → LPErr
  | depth : LPErr
  | keyErr : LPErr
deriving DecidableEq

/-- The inner `get_longest` of `Graph.longest_path`: memoized recursion over
the stored parent lists.  The fuel parameter embeds Python's bounded call
stack: each nested call consumes one unit, and exhaustion is the
`RecursionError` the source later converts to the dodgy error.  The memo
dictionary is threaded exactly as the mutable Python dict is. -/
def getLongest (es : GEntries) : Nat → GNode → Memo → Except LPErr (QR × Memo)
  | 0, _, _ => .error .depth
  | Nat.succ fuel, n, memo =>
    match lookupA memo n with
    | some v => .ok (v, memo)
    | none =>
      match lookupA es n with
      | none => .error .keyErr
      | some parents =>
        match parents.foldlM
            (fun (acc : QR × Memo) pe =>
              (getLongest es fuel pe.1 acc.2).map
                (fun r => (max acc.1 (r.1 + pe.2), r.2)))
            ((0 : QR), memo) with
        | .error e => .error e
        | .ok r => .ok (r.1, (n, r.1) :: r.2)

/-- `Graph.longest_path`: raise the missing-start `ValueError` when the
`start` entry is empty, then evaluate `get_longest` at every key and take
the maximum; a `RecursionError` (fuel exhaustion) escaping that evaluation
is re-raised as the descriptive dodgy-graph error naming the graph.  The
source also returns the arg-max key; no caller uses it, so only the length
and the memo are returned here. -/
def Graph.longest_path (g : Graph) (fuel : Nat) : Except LPErr (QR × Memo) :=
  match lookupA g.entries GNode.start with
  | none => .error .keyErr
  | some [] => .error (.noStart g.name)
  | some (_ :: _) =>
    match (g.entries.map Prod.fst).foldlM
        (fun (acc : QR × Memo) n =>
          (getLongest g.entries fuel n acc.2).map
            (fun r => (max acc.1 r.1, r.2)))
        ((0 : QR), ([] : Memo)) with
    | .error LPErr.depth => .error (.dodgy g.name)
    | .error e => .error e
    | .ok r => .ok r

/-- The forward/reverse graph pair of one axis. -/
structure Graphs : Type where
  fwd : Graph
  rev : Graph
deriving DecidableEq

/-- `Graphs.__init__`. -/
def Graphs.init (name : String) : Graphs :=
  ⟨⟨"forward " ++ name, []⟩, ⟨"reverse " ++ name, []⟩⟩

/-- `Graphs.add`: record the pair in the forward graph and swapped in the
reverse graph. -/
def Graphs.add (gs : Graphs) (n1 n2 : GNode) (size : QR) : Graphs :=
  ⟨gs.fwd.add n1 n2 size, gs.rev.add n2 n1 size⟩

/-- Replace or append the entry of one key (Python `self.fwd['start'] = …`). -/
def setEntry (g : Graph) (k : GNode) (v : List (GNode × QR)) : Graph :=
  ⟨g.name, setKeyA g.entries k v⟩

/-- `Graphs.add_start_nodes`: collect the keys with empty forward entries
(`orphans`) and empty reverse entries (`rorphans`) over the forward key set
(`Graphs.add` keeps both key sets equal), then store `rorphans` as the
forward `start` entry and `orphans` as the reverse one. -/
def Graphs.add_start_nodes (gs : Graphs) : Graphs :=
  let orphans := gs.fwd.entries.filterMap (fun p =>
    if p.2 = [] then some (p.1, (0 : QR)) else none)
  let rorphans := gs.fwd.entries.filterMap (fun p =>
    if (lookupA gs.rev.entries p.1).getD [] = [] then some (p.1, (0 : QR))
    else none)
  ⟨setEntry gs.fwd GNode.start rorphans, setEntry gs.rev GNode.start orphans⟩

/-! ## Horizontal placement (`Schematic._make_graphs`) -/

/-- A schematic element as the horizontal layout pass sees it: name, the
two drawn terminals, the `dir` drawing hint and the `size` hint. -/
structure SElt : Type where
  name : String
  n1 : String
  n2 : String
  dir : String
  size : QR

/-- Modelled from the spec: the `xlink` method of the missing `schemcpts`
module — a component whose direction is orthogonal to the horizontal axis
(`up` or `down`) links its two terminal nodes into one common node set. -/
def xlink (cn : Cnodes) (e : SElt) : Cnodes :=
  if e.dir = "up" ∨ e.dir = "down" then cn.link e.n1 e.n2 else cn

/-- Modelled from the spec: the `xplace` method of the missing `schemcpts`
module — a component drawn along the horizontal axis adds a directed edge
of its minimum span between the representatives of its terminal common-node
sets; `right` uses the positive size, `left` the inverted-terminal negative
size convention. -/
def xplace (gs : Graphs) (cn : Cnodes) (e : SElt) : Graphs :=
  if e.dir = "right" then
    gs.add (GNode.rep (cn.val e.n1)) (GNode.rep (cn.val e.n2)) e.size
  else if e.dir = "left" then
    gs.add (GNode.rep (cn.val e.n1)) (GNode.rep (cn.val e.n2)) (-e.size)
  else gs

/-- The graphs of the horizontal axis after the merge pass, the edge pass
and `add_start_nodes`, as `Schematic._make_graphs` builds them. -/
def make_graphs_graphs (nodes : List String) (elts : List SElt) :
    Cnodes × Graphs :=
  let cn := elts.foldl xlink (Cnodes.init nodes)
  let gs := elts.foldl (fun g e => xplace g cn e) (Graphs.init "horizontal")
  (cn, gs.add_start_nodes)

/-- `Schematic._make_graphs` for the horizontal axis: solve both longest
paths and emit, per node, the centered position
`0.5 * ((length - memo[gnode]) + memor[gnode])`, where `length` is the
second (reverse-graph) longest-path length, exactly as the source rebinds
it; also return that length (the axis extent). -/
def make_graphs (nodes : List String) (elts : List SElt) (fuel : Nat) :
    Except LPErr (List (String × QR) × QR) :=
  let (cn, gs) := make_graphs_graphs nodes elts
  match gs.fwd.longest_path fuel with
  | .error e => .error e
  | .ok (_, memo) =>
    match gs.rev.longest_path fuel with
    | .error e => .error e
    | .ok (length, memor) =>
      .ok (nodes.map (fun n =>
        let g := GNode.rep (cn.val n)
        (n, QR.half * ((length - (lookupA memo g).getD 0)
            + (lookupA memor g).getD 0))), length)

/-! ## Drawing-hint options (`Opts` and `Schematic.parse` defaults) -/

/-- Values stored in an `Opts` dictionary: parsed strings, the int default
`1` for `size` (embedded as a rational), and Python `None`. -/
inductive OVal : Type where
  | s : String → OVal
  | num : QR → OVal
  | null : OVal
deriving DecidableEq

/-- `Opts._parse`: split the hint string on commas, strip each part, skip
empty parts, store a bare direction keyword under key `dir`, and otherwise
split on `=` into key and argument (re-joining any further `=`).  The
string operations run on character lists (see `splitChar` and friends). -/
def optsParse (str : String) : List (String × OVal) :=
  (splitChar ',' str.data).foldl (fun acc part =>
    let p : String := ⟨trimChars part⟩
    if p = "" then acc
    else if p = "up" ∨ p = "down" ∨ p = "left" ∨ p = "right" then
      setKeyA acc "dir" (OVal.s p)
    else
      let fields := splitChar '=' p.data
      let key : String := ⟨trimChars (fields.headD [])⟩
      let arg : String := if fields.length > 1 then
          ⟨trimChars (interChar '=' (fields.drop 1))⟩
        else ""
      setKeyA acc key (OVal.s arg)) []

/-- The drawing-hint defaulting at the end of `Schematic.parse`: a missing
`dir` key becomes `None` and a missing `size` key becomes `1`; a `None`
direction is then replaced by `down` for open-circuit (`O`) and port (`P`)
components and by `right` for every other type. -/
def cpt_opts (ctype : String) (opts_string : String) : List (String × OVal) :=
  let opts := optsParse opts_string
  let opts := if hasKeyA opts "dir" then opts else setKeyA opts "dir" OVal.null
  let opts := if hasKeyA opts "size" then opts
    else setKeyA opts "size" (OVal.num 1)
  if lookupA opts "dir" = some OVal.null then
    setKeyA opts "dir"
      (OVal.s (if ctype = "O" ∨ ctype = "P" then "down" else "right"))
  else opts

/-! ## Concrete instances used by the witnesses and counterexamples -/

/-- The voltage source `V1 1 0` of the specification's end-to-end circuit. -/
def eltV1 : Elt := ⟨"V1", "V", ["1", "0"]⟩

/-- The resistor `R1 1 2`. -/
def eltR1 : Elt := ⟨"R1", "R", ["1", "2"]⟩

/-- The inductor `L1 2 0`. -/
def eltL1 : Elt := ⟨"L1", "L", ["2", "0"]⟩

/-- Incidence lists of the circuit `V1 1 0`, `R1 1 2`, `L1 2 0`. -/
def connectedEx : String → List Elt := fun n =>
  if n = "0" then [eltV1, eltL1]
  else if n = "1" then [eltV1, eltR1]
  else if n = "2" then [eltR1, eltL1]
  else []

/-- The `ydict` of the example circuit. -/
def ydictEx : String → Option SExpr := ydict_of ["0", "1", "2"]

/-- A total unknowns dictionary (every node bound), used where a theorem
assumes all `ydict` lookups succeed. -/
def ydictTot : String → Option SExpr :=
  fun n => some (if n = "0" then SExpr.zero else SExpr.y n)

/-- The equation dictionary of the example circuit, as `_make_equations`
produces it. -/
def eqsEx : List (String × (SExpr × SExpr)) :=
  [("1", (SExpr.y "1", SExpr.add SExpr.zero (SExpr.vEq "V1"))),
   ("2", (SExpr.add
      (SExpr.add SExpr.cur0 (SExpr.iEq "R1" (SExpr.sub (SExpr.y "2") (SExpr.y "1"))))
      (SExpr.iEq "L1" (SExpr.sub (SExpr.y "2") SExpr.zero)), SExpr.zero))]

/-- A voltage source whose second terminal is the traversed node. -/
def eltV12 : Elt := ⟨"V1", "V", ["1", "2"]⟩

/-- Incidence for the node-2 traversal of `V1 1 2`. -/
def connectedPin : String → List Elt := fun n =>
  if n = "2" then [eltV12] else []

/-- Incidence with a malformed single-terminal component at node `1` and a
component with two foreign terminals at node `2`. -/
def connectedBad : String → List Elt := fun n =>
  if n = "1" then [⟨"X1", "R", ["1"]⟩]
  else if n = "2" then [⟨"X2", "R", ["3", "4"]⟩]
  else []

/-- Nodes of the three-resistor horizontal chain. -/
def chainNodes : List String := ["0", "1", "2", "3"]

/-- The three series resistors of the chain, all drawn `right` with the
default unit size. -/
def chainElts : List SElt :=
  [⟨"R1", "0", "1", "right", 1⟩, ⟨"R2", "1", "2", "right", 1⟩,
   ⟨"R3", "2", "3", "right", 1⟩]

/-- The node positions `_make_graphs` computes for the chain. -/
def chainPos : List (String × QR) :=
  [("0", 0), ("1", 1), ("2", 2), ("3", 3)]

/-- Graph node of the singleton class of chain node `n`. -/
def chainRep (n : String) : GNode := GNode.rep [n]

/-- Common-node representative `A` of the hand-constructed cycle. -/
def cycA : GNode := GNode.rep ["A"]

/-- Common-node representative `B`. -/
def cycB : GNode := GNode.rep ["B"]

/-- Common-node representative `C`. -/
def cycC : GNode := GNode.rep ["C"]

/-- The positional contradiction of the claim: one component puts `A`
strictly right of `B`, another puts `B` strictly right of `A`. -/
def twoCycle : Graphs :=
  (((Graphs.init "horizontal").add cycA cycB 1).add cycB cycA 1).add_start_nodes

/-- The same contradiction together with a third component hanging `A` off
a fresh node `C`, so that a start node exists and the longest-path
recursion is actually entered. -/
def rootedCycle : Graphs :=
  ((((Graphs.init "horizontal").add cycA cycB 1).add cycB cycA 1).add
    cycC cycA 1).add_start_nodes

/-- The forward entries of `rootedCycle`, written out. -/
def esRootedFull : GEntries :=
  [(cycA, [(cycB, 1)]), (cycB, [(cycA, 1)]), (cycC, [(cycA, 1)]),
   (GNode.start, [(cycC, 0)])]

/-! ## Association-list lemmas -/

theorem lookupA_append {α β : Type} [DecidableEq α] (es fs : List (α × β))
    (x : α) :
    lookupA (es ++ fs) x =
      match lookupA es x with
      | some v => some v
      | none => lookupA fs x := by
  induction es with
  | nil => rfl
  | cons p ps ih =>
    by_cases h : p.1 = x <;> simp [lookupA, h, ih]

theorem hasKeyA_iff_lookupA {α β : Type} [DecidableEq α]
    (es : List (α × β)) (k : α) :
    hasKeyA es k = true ↔ (lookupA es k).isSome := by
  induction es with
  | nil => simp [hasKeyA, lookupA]
  | cons p ps ih =>
    by_cases h : p.1 = k
    · simp [hasKeyA, lookupA, h]
    · simp only [hasKeyA, lookupA, h, List.any_cons, decide_eq_true_eq,
        if_neg h, Bool.false_or]
      simpa [hasKeyA] using ih

theorem lookupA_eq_none_of_hasKeyA {α β : Type} [DecidableEq α]
    {es : List (α × β)} {k : α} (h : hasKeyA es k = false) :
    lookupA es k = none := by
  by_contra hne
  have : (lookupA es k).isSome := by
    cases hl : lookupA es k with
    | none => exact absurd hl hne
    | some v => simp
  rw [← hasKeyA_iff_lookupA] at this
  rw [h] at this
  exact Bool.false_ne_true this


theorem lookupA_map_replace {α β : Type} [DecidableEq α]
    (es : List (α × β)) (k : α) (v : β) (x : α) :
    lookupA (es.map (fun p => if p.1 = k then (k, v) else p)) x =
      if x = k then (lookupA es k).map (fun _ => v) else lookupA es x := by
  induction es with
  | nil => by_cases h : x = k <;> simp [lookupA, h]
  | cons p ps ih =>
    by_cases hp : p.1 = k
    · by_cases hx : x = k
      · simp [lookupA, hp, hx, ih]
      · have hkx : ¬ k = x := fun hc => hx hc.symm
        have hpx : ¬ p.1 = x := fun hc => hx (hc ▸ hp.symm ▸ rfl)
        simp [lookupA, hp, hx, ih, hkx, hpx]
    · by_cases hx : p.1 = x
      · have hxk : ¬ x = k := fun hc => hp (hx ▸ hc)
        simp [lookupA, hp, hx, hxk]
      · simp [lookupA, hp, hx, ih]

theorem lookupA_setKeyA {α β : Type} [DecidableEq α]
    (es : List (α × β)) (k : α) (v : β) (x : α) :
    lookupA (setKeyA es k v) x =
      if x = k then some v else lookupA es x := by
  unfold setKeyA
  by_cases h : es.any (fun p => p.1 = k)
  · rw [if_pos h, lookupA_map_replace]
    by_cases hx : x = k
    · have hk : (lookupA es k).isSome := by
        rw [← hasKeyA_iff_lookupA]; exact h
      cases hl : lookupA es k with
      | none => rw [hl] at hk; simp at hk
      | some w => simp [hx, hl]
    · simp [hx]
  · rw [if_neg h, lookupA_append]
    have hkey : hasKeyA es k = false := by
      rw [Bool.eq_false_iff]; exact h
    have hn : lookupA es k = none := lookupA_eq_none_of_hasKeyA hkey
    by_cases hx : x = k
    · subst hx; simp [hn, lookupA]
    · have hkx : ¬ k = x := fun hc => hx hc.symm
      cases hl : lookupA es x with
      | none => simp [lookupA, hx, hkx]
      | some w => simp [hx]

theorem hasKeyA_setKeyA {α β : Type} [DecidableEq α]
    (es : List (α × β)) (k : α) (v : β) (x : α) :
    hasKeyA (setKeyA es k v) x = (decide (x = k) || hasKeyA es x) := by
  rw [Bool.eq_iff_iff]
  rw [hasKeyA_iff_lookupA, lookupA_setKeyA]
  by_cases hx : x = k
  · simp [hx]
  · simp [hx, hasKeyA_iff_lookupA]

/-! ## C7: matrix-form equations and the time domain -/

/-- C7: the time-domain guard of `equations()` behaves as claimed — kind
`time` (and `super`, normalized to `time` at construction) raises the
dedicated `ValueError` — but the non-time half of the claim fails on the
code: for every other kind, `_analyse` evaluates
`self.equations_dict.values()` on the uncalled method `equations_dict` and
raises `AttributeError`, so the linearized matrix system is never
returned. -/
theorem equations_matrix_never_ok (α : Type) (cct_kind : String) :
    na_equations_of α cct_kind
      = (if cct_kind = "time" ∨ cct_kind = "super" then
          Except.error "Cannot put time domain equations into matrix form"
        else Except.error
          "AttributeError: instancemethod object has no attribute values")
    ∧ ∀ a : α, na_equations_of α cct_kind ≠ Except.ok a := by
  have h : na_equations_of α cct_kind
      = (if cct_kind = "time" ∨ cct_kind = "super" then
          Except.error "Cannot put time domain equations into matrix form"
        else Except.error
          "AttributeError: instancemethod object has no attribute values") := by
    unfold na_equations_of na_equations na_init_kind na_analyse
    by_cases h1 : cct_kind = "super"
    · simp [h1]
    · by_cases h2 : cct_kind = "time" <;> simp [h1, h2]
  refine ⟨h, ?_⟩
  intro a hc
  rw [h] at hc
  split at hc <;> exact Except.noConfusion hc

/-! ## C2: the voltage-source pinning equation -/

/-- C2 counterexample: traversing node `2` with the source `V1 1 2`
incident, the emitted pair is `(v1, v2 + V)` — the source's first terminal
on the left — whereas the claim predicts `(v2, v1 + V)` (this node's
voltage equal to the other terminal's voltage plus the source value). -/
theorem voltage_pin_direction_cex :
    node_equation connectedPin id ydictEx "2"
      = Except.ok (SExpr.y "1", SExpr.add (SExpr.y "2") (SExpr.vEq "V1"))
    ∧ (SExpr.y "1", SExpr.add (SExpr.y "2") (SExpr.vEq "V1"))
      ≠ ((SExpr.y "2", SExpr.add (SExpr.y "1") (SExpr.vEq "V1")) :
          SExpr × SExpr) :=
  ⟨by decide, by decide⟩

/-- C2 amended: for a node whose incident list contains a type-`V` source,
the emitted entry comes from the first such source in connection-list order
and pins the source's own terminal pair: left-hand side the unknown voltage
of the source's first terminal (after node mapping), right-hand side the
unknown voltage of its second terminal plus the source's value-equation at
zero bias — which coincides with "this node = other terminal + V" exactly
when the traversed node is the source's first terminal — and no
current-sum equation is emitted for the node. -/
theorem voltage_pin_first_terminal (cm : String → List Elt)
    (nm : String → String) (yd : String → Option SExpr) (node : String)
    (elt : Elt) (rest : List Elt) (a b : String) (tl : List String)
    (ya yb : SExpr)
    (hv : (cm node).filter (fun e => e.type = "V") = elt :: rest)
    (hn : elt.nodenames = a :: b :: tl)
    (h1 : yd (nm a) = some ya) (h2 : yd (nm b) = some yb) :
    node_equation cm nm yd node
      = Except.ok (ya, SExpr.add yb (SExpr.vEq elt.name)) := by
  unfold node_equation
  dsimp only
  rw [hv]
  simp [hn, h1, h2]

/-- C2 witness: at node `1` of the end-to-end circuit, the source `V1 1 0`
pins `v1 = 0 + V`. -/
theorem voltage_pin_first_terminal_witness :
    node_equation connectedEx id ydictEx "1"
      = Except.ok (SExpr.y "1", SExpr.add SExpr.zero (SExpr.vEq "V1")) :=
  voltage_pin_first_terminal connectedEx id ydictEx "1" eltV1 []
    "1" "0" [] (SExpr.y "1") SExpr.zero (by decide) (by decide)
    (by decide) (by decide)

/-! ## C10: default drawing direction and size -/

/-- C10 counterexample: the hint string `dir=left` contains no bare
direction keyword, yet the parsed `dir` key suppresses the defaulting and
an `R` component ends up drawn `left` instead of the claimed default
`right`. -/
theorem cpt_opts_default_dir_cex :
    optsParse "dir=left" = [("dir", OVal.s "left")]
    ∧ ("dir=left" ≠ "up" ∧ "dir=left" ≠ "down" ∧ "dir=left" ≠ "left"
        ∧ "dir=left" ≠ "right")
    ∧ lookupA (cpt_opts "R" "dir=left") "dir" = some (OVal.s "left")
    ∧ OVal.s "left" ≠ OVal.s "right" := by
  refine ⟨by decide, by decide, by decide, by decide⟩

/-- C10 amended: for a netlist line whose parsed directives contain no
`dir` key — i.e. neither a bare direction keyword `up`/`down`/`left`/
`right` (which is stored as the `dir` key) nor an explicit `dir=…`
assignment — the component receives the default direction `down` when its
type is `O` or `P` and `right` otherwise; and when no `size` key was
parsed either, the stored size defaults to `1`. -/
theorem cpt_opts_defaults (ctype opts_string : String)
    (hd : hasKeyA (optsParse opts_string) "dir" = false) :
    lookupA (cpt_opts ctype opts_string) "dir"
      = some (OVal.s (if ctype = "O" ∨ ctype = "P" then "down" else "right"))
    ∧ (hasKeyA (optsParse opts_string) "size" = false →
        lookupA (cpt_opts ctype opts_string) "size" = some (OVal.num 1)) := by
  unfold cpt_opts
  dsimp only
  rw [hd]
  simp only [Bool.false_eq_true, if_false]
  rw [hasKeyA_setKeyA]
  have hsd : (decide (("size" : String) = "dir")) = false := by decide
  rw [hsd, Bool.false_or]
  by_cases hs : hasKeyA (optsParse opts_string) "size" = true
  · rw [hs]
    simp only [if_true]
    constructor
    · simp [lookupA_setKeyA]
    · intro hcontra
      exact Bool.noConfusion hcontra
  · have hsf : hasKeyA (optsParse opts_string) "size" = false :=
      Bool.eq_false_iff.mpr hs
    rw [hsf]
    simp only [Bool.false_eq_true, if_false]
    constructor
    · simp [lookupA_setKeyA]
    · intro _
      simp [lookupA_setKeyA]

/-- C10 witness: an `R` component with an empty hint string receives
direction `right` and size `1`. -/
theorem cpt_opts_defaults_witness :
    hasKeyA (optsParse "") "dir" = false
    ∧ lookupA (cpt_opts "R" "") "dir" = some (OVal.s "right")
    ∧ lookupA (cpt_opts "R" "") "size" = some (OVal.num 1) :=
  ⟨rfl, (cpt_opts_defaults "R" "" rfl).1, (cpt_opts_defaults "R" "" rfl).2 rfl⟩

/-! ## C4: longest-path centering of the three-resistor chain -/

/-- C4 counterexample: the three-component chain has four nodes and its
computed x-positions are `0, 1, 2, 3`, not the claimed `0, 1, 2`. -/
theorem chain_positions_cex :
    make_graphs chainNodes chainElts 20 = Except.ok (chainPos, 3)
    ∧ chainPos.map Prod.snd = [0, 1, 2, 3]
    ∧ ([0, 1, 2, 3] : List QR) ≠ [0, 1, 2] := by
  refine ⟨by decide, by decide, by decide⟩

/-- C4 amended: each chain position is the centered average
`0.5 * (d_fwd + total - d_rev)` of the two memoized longest-path distances,
where `d_fwd` is the distance in the graph whose edges follow the drawing
direction (the `rev` member of the pair, whose memo table grows left to
right) and `d_rev` its reversal (the `fwd` member); the four node positions
come out as `0, 1, 2, 3`. -/
theorem chain_positions_centering :
    make_graphs chainNodes chainElts 20 = Except.ok (chainPos, 3)
    ∧ (make_graphs_graphs chainNodes chainElts).2.fwd.longest_path 20
      = Except.ok (3, [(GNode.start, 3), (chainRep "0", 3), (chainRep "1", 2),
          (chainRep "2", 1), (chainRep "3", 0)])
    ∧ (make_graphs_graphs chainNodes chainElts).2.rev.longest_path 20
      = Except.ok (3, [(GNode.start, 3), (chainRep "3", 3), (chainRep "2", 2),
          (chainRep "1", 1), (chainRep "0", 0)])
    ∧ lookupA chainPos "0" = some (QR.half * ((0 : QR) + 3 - 3))
    ∧ lookupA chainPos "1" = some (QR.half * ((1 : QR) + 3 - 2))
    ∧ lookupA chainPos "2" = some (QR.half * ((2 : QR) + 3 - 1))
    ∧ lookupA chainPos "3" = some (QR.half * ((3 : QR) + 3 - 0)) := by
  refine ⟨by decide, by decide, by decide, by decide, by decide, by decide,
    by decide⟩

/-! ## C6: cycle handling in the layout graphs -/

/-- C6 counterexample: the pure two-component contradiction leaves every
node with incoming edges in both graphs, so `longest_path` raises the
missing-start `ValueError`, not the "dodgy schematic graph" error the claim
requires. -/
theorem cycle_no_start_cex :
    twoCycle.fwd.longest_path 1000 = Except.error (LPErr.noStart "forward horizontal")
    ∧ LPErr.noStart "forward horizontal" ≠ LPErr.dodgy "forward horizontal" := by
  refine ⟨by decide, by decide⟩

theorem getLongest_single_parent_depth (es : GEntries) (n p : GNode) (w : QR)
    (hn : lookupA es n = some [(p, w)]) (fuel : Nat)
    (hp : getLongest es fuel p [] = Except.error LPErr.depth) :
    getLongest es (fuel + 1) n [] = Except.error LPErr.depth := by
  show getLongest es (Nat.succ fuel) n [] = _
  simp only [getLongest, lookupA]
  rw [hn]
  simp only [List.foldlM, hp, Except.map, bind, Except.bind]

theorem rooted_cycle_getLongest_depth :
    ∀ fuel, getLongest esRootedFull fuel cycA [] = Except.error LPErr.depth
      ∧ getLongest esRootedFull fuel cycB [] = Except.error LPErr.depth := by
  intro fuel
  induction fuel with
  | zero => exact ⟨rfl, rfl⟩
  | succ f ih =>
    exact ⟨getLongest_single_parent_depth esRootedFull cycA cycB 1
        (by decide) f ih.2,
      getLongest_single_parent_depth esRootedFull cycB cycA 1
        (by decide) f ih.1⟩

theorem rooted_cycle_dodgy_aux (fuel : Nat)
    (hA : getLongest esRootedFull fuel cycA [] = Except.error LPErr.depth) :
    Graph.longest_path ⟨"forward horizontal", esRootedFull⟩ fuel
      = Except.error (LPErr.dodgy "forward horizontal") := by
  unfold Graph.longest_path
  rw [show lookupA esRootedFull GNode.start = some [(cycC, 0)] from by decide]
  simp only [esRootedFull] at hA ⊢
  simp only [List.map, List.foldlM, hA, Except.map, bind, Except.bind]

/-- C6 amended: a true directed cycle is always fatal, but through two
different errors and with no visited-set guard in the source: when the
cycle leaves no start node at all (as in the two-component contradiction),
`longest_path` raises the missing-start `ValueError` naming the graph;
when a start node exists and the memoized recursion reaches the cycle, the
recursion exhausts the interpreter's recursion limit (any fuel bound) and
that `RecursionError` is caught and re-raised as the descriptive
"dodgy schematic graph" error naming the graph.  Detection therefore rests
on the recursion-depth limit, not on a visited set distinct from the memo
cache. -/
theorem cycle_detection_behavior :
    (∀ fuel, twoCycle.fwd.longest_path fuel
        = Except.error (LPErr.noStart "forward horizontal"))
    ∧ (∀ fuel, rootedCycle.fwd.longest_path fuel
        = Except.error (LPErr.dodgy "forward horizontal")) := by
  constructor
  · intro fuel
    have hg : twoCycle.fwd = ⟨"forward horizontal",
        [(cycA, [(cycB, 1)]), (cycB, [(cycA, 1)]), (GNode.start, [])]⟩ := by
      decide
    rw [hg]
    unfold Graph.longest_path
    rw [show lookupA [(cycA, [(cycB, (1 : QR))]), (cycB, [(cycA, 1)]),
        (GNode.start, [])] GNode.start = some [] from by decide]
  · intro fuel
    have hg : rootedCycle.fwd = ⟨"forward horizontal", esRootedFull⟩ := by
      decide
    rw [hg]
    exact rooted_cycle_dodgy_aux fuel (rooted_cycle_getLongest_depth fuel).1

/-! ## KCL assembly lemmas and the remaining claims -/

theorem nodenames_two (e : Elt) (hlen : ¬ e.nodenames.length < 2) :
    ∃ a b t, e.nodenames = a :: b :: t := by
  cases h1 : e.nodenames with
  | nil => rw [h1] at hlen; simp at hlen
  | cons x xs =>
    cases h2 : xs with
    | nil => rw [h1, h2] at hlen; simp at hlen
    | cons y ys => exact ⟨x, y, ys, rfl⟩

theorem kclStep_ok (nm : String → String) (yd : String → Option SExpr)
    (node : String) (acc : SExpr) (e : Elt)
    (hyd : ∀ n, (yd n).isSome)
    (he : kclError nm node e = none) :
    kclStep nm yd node acc e
      = Except.ok (SExpr.add acc (kclTerm nm yd node e)) := by
  have hlen : ¬ (e.nodenames.length < 2) := by
    intro h
    unfold kclError at he
    rw [if_pos h] at he
    exact Option.noConfusion he
  obtain ⟨a, b, t, hab⟩ := nodenames_two e hlen
  have hor : node = nm a ∨ node = nm b := by
    by_contra hno
    push_neg at hno
    unfold kclError at he
    rw [if_neg hlen] at he
    simp [hab, hno.1, hno.2] at he
  rcases Option.isSome_iff_exists.mp (hyd (nm a)) with ⟨ya, hya⟩
  rcases Option.isSome_iff_exists.mp (hyd (nm b)) with ⟨yb, hyb⟩
  unfold kclStep kclTerm
  rw [if_neg hlen]
  by_cases hm1 : node = nm a
  · simp [hab, hm1, hya, hyb]
  · have hm2 : node = nm b := hor.resolve_left hm1
    simp only [hab, List.get?_cons_zero, List.get?_cons_succ,
      List.getD_cons_zero, List.getD_cons_succ]
    rw [if_neg hm1, if_neg hm1, if_pos hm2, hya, hyb]
    rfl

theorem kclStep_err (nm : String → String) (yd : String → Option SExpr)
    (node : String) (acc : SExpr) (e : Elt)
    (he : (kclError nm node e).isSome) :
    kclStep nm yd node acc e
      = Except.error ((kclError nm node e).getD (NAError.keyError "")) := by
  by_cases hlen : e.nodenames.length < 2
  · unfold kclStep kclError
    simp [hlen]
  · obtain ⟨a, b, t, hab⟩ := nodenames_two e hlen
    have hno : ¬ (node = nm a ∨ node = nm b) := by
      intro hor
      unfold kclError at he
      rw [if_neg hlen] at he
      simp only [hab, List.getD_cons_zero, List.getD_cons_succ] at he
      rw [if_pos hor] at he
      simp at he
    push_neg at hno
    unfold kclStep kclError
    rw [if_neg hlen, if_neg hlen]
    simp [hab, hno.1, hno.2]

theorem kcl_foldlM_ok (nm : String → String) (yd : String → Option SExpr)
    (node : String) (hyd : ∀ n, (yd n).isSome) :
    ∀ (l : List Elt) (acc : SExpr), (∀ e ∈ l, kclError nm node e = none) →
      l.foldlM (kclStep nm yd node) acc =
        Except.ok (l.foldl
          (fun a e => SExpr.add a (kclTerm nm yd node e)) acc) := by
  intro l
  induction l with
  | nil => intro acc _; rfl
  | cons e t ih =>
    intro acc hwf
    rw [List.foldlM_cons,
      kclStep_ok nm yd node acc e hyd (hwf e (List.mem_cons_self e t))]
    show t.foldlM (kclStep nm yd node) _ = _
    rw [List.foldl_cons]
    exact ih _ (fun x hx => hwf x (List.mem_cons_of_mem e hx))

theorem summands_kclTerm (nm : String → String) (yd : String → Option SExpr)
    (node : String) (e : Elt) :
    summands (kclTerm nm yd node e) = [kclTerm nm yd node e] := by
  unfold kclTerm
  dsimp only
  split <;> rfl

theorem summands_foldl (nm : String → String) (yd : String → Option SExpr)
    (node : String) :
    ∀ (l : List Elt) (acc : SExpr),
      summands (l.foldl (fun a e => SExpr.add a (kclTerm nm yd node e)) acc)
        = summands acc ++ l.map (kclTerm nm yd node) := by
  intro l
  induction l with
  | nil => intro acc; simp
  | cons e t ih =>
    intro acc
    rw [List.foldl_cons, ih, List.map_cons,
      show summands (SExpr.add acc (kclTerm nm yd node e))
        = summands acc ++ summands (kclTerm nm yd node e) from rfl,
      summands_kclTerm, List.append_assoc]
    rfl

/-- C1: at a non-reference, non-dummy node with no incident voltage source,
the emitted equation has right-hand side the literal `0` and left-hand side
the sum, over the connected elements in connection-list order, of exactly
one signed branch-current term per element — the element's `i_equation`
applied to the voltage of the terminal facing the node minus the voltage of
the other terminal — seeded with the zero current constant; no element is
omitted or contributes twice. -/
theorem kcl_sum_structure (cm : String → List Elt) (nm : String → String)
    (yd : String → Option SExpr) (node : String)
    (hyd : ∀ n, (yd n).isSome)
    (hnoV : ∀ e ∈ cm node, e.type ≠ "V")
    (hwf : ∀ e ∈ cm node, kclError nm node e = none) :
    node_equation cm nm yd node
      = Except.ok (kclSum nm yd node (cm node), SExpr.zero)
    ∧ summands (kclSum nm yd node (cm node))
      = SExpr.cur0 :: (cm node).map (kclTerm nm yd node) := by
  have hfilter : (cm node).filter (fun e => e.type = "V") = [] := by
    rw [List.filter_eq_nil_iff]
    intro e he
    simpa using hnoV e he
  constructor
  · unfold node_equation
    dsimp only
    rw [hfilter, kcl_foldlM_ok nm yd node hyd (cm node) SExpr.cur0 hwf]
    rfl
  · unfold kclSum
    rw [summands_foldl]
    rfl

/-- C1 witness: node `2` of the end-to-end circuit, with `R1` and `L1`
incident. -/
theorem kcl_sum_structure_witness :
    node_equation connectedEx id ydictTot "2"
      = Except.ok (kclSum id ydictTot "2" (connectedEx "2"), SExpr.zero)
    ∧ summands (kclSum id ydictTot "2" (connectedEx "2"))
      = SExpr.cur0 :: (connectedEx "2").map (kclTerm id ydictTot "2") :=
  kcl_sum_structure connectedEx id ydictTot "2" (fun _ => rfl)
    (by decide) (by decide)

theorem kcl_foldlM_err (nm : String → String) (yd : String → Option SExpr)
    (node : String) (hyd : ∀ n, (yd n).isSome) :
    ∀ (l : List Elt) (acc : SExpr) (eBad : Elt),
      l.find? (fun e => (kclError nm node e).isSome) = some eBad →
      l.foldlM (kclStep nm yd node) acc
        = Except.error ((kclError nm node eBad).getD (NAError.keyError "")) := by
  intro l
  induction l with
  | nil => intro acc eBad h; simp [List.find?] at h
  | cons e t ih =>
    intro acc eBad h
    rw [List.foldlM_cons]
    by_cases hp : (kclError nm node e).isSome
    · have heq : eBad = e := by
        rw [List.find?_cons_of_pos _ (by simpa using hp)] at h
        exact (Option.some_inj.mp h).symm
      subst heq
      rw [kclStep_err nm yd node acc eBad hp]
      rfl
    · have hfind : t.find? (fun e => (kclError nm node e).isSome) = some eBad := by
        rw [List.find?_cons_of_neg _ (by simpa using hp)] at h
        exact h
      have hnone : kclError nm node e = none :=
        Option.not_isSome_iff_eq_none.mp hp
      rw [kclStep_ok nm yd node acc e hyd hnone]
      show t.foldlM (kclStep nm yd node) _ = _
      exact ih _ eBad hfind

theorem meStep_fold_ok_all (cm : String → List Elt) (nm : String → String)
    (yd : String → Option SExpr) :
    ∀ (l : List String) (acc : List (String × (SExpr × SExpr)))
      (eqs : List (String × (SExpr × SExpr))),
      l.foldlM (meStep cm nm yd) acc = Except.ok eqs →
      ∀ n ∈ l, n ≠ "0" → startsWithStar n = false →
        ∃ p, node_equation cm nm yd n = Except.ok p := by
  intro l
  induction l with
  | nil => intro acc eqs _ n hn; simp at hn
  | cons m t ih =>
    intro acc eqs h n hn h0 hstar
    rw [List.foldlM_cons] at h
    rcases List.mem_cons.mp hn with hm | hmem
    · subst hm
      unfold meStep at h
      rw [if_neg h0, if_neg (by rw [hstar]; exact Bool.false_ne_true)] at h
      cases hne : node_equation cm nm yd n with
      | ok p => exact ⟨p, rfl⟩
      | error e =>
        rw [hne] at h
        exact Except.noConfusion h
    · cases hstep : meStep cm nm yd acc m with
      | ok acc2 =>
        rw [hstep] at h
        exact ih acc2 eqs h n hmem h0 hstar
      | error e =>
        rw [hstep] at h
        exact Except.noConfusion h

/-- C8: during KCL assembly a malformed element is always fatal: the first
connected element with fewer than two terminals aborts the node's equation
with the `ValueError` naming that element, and the first element whose two
mapped terminals both differ from the traversed node aborts with the
`ValueError` naming the element and the node (`kclError` packages exactly
these two checks); conversely, whenever `_make_equations` returns an
equation set, every enumerated non-reference, non-dummy node's equation
succeeded — nothing was silently skipped. -/
theorem kcl_malformed_fatal (cm : String → List Elt) (nm : String → String)
    (yd : String → Option SExpr) (hyd : ∀ n, (yd n).isSome) :
    (∀ (node : String) (eBad : Elt),
      (∀ e ∈ cm node, e.type ≠ "V") →
      (cm node).find? (fun e => (kclError nm node e).isSome) = some eBad →
      node_equation cm nm yd node
        = Except.error ((kclError nm node eBad).getD (NAError.keyError "")))
    ∧ (∀ (g_nodes : List String) (eqs : List (String × (SExpr × SExpr))),
      make_equations g_nodes cm nm yd = Except.ok eqs →
      ∀ n ∈ g_nodes, n ≠ "0" → startsWithStar n = false →
        ∃ p, node_equation cm nm yd n = Except.ok p) := by
  constructor
  · intro node eBad hnoV hfind
    have hfilter : (cm node).filter (fun e => e.type = "V") = [] := by
      rw [List.filter_eq_nil_iff]
      intro e he
      simpa using hnoV e he
    unfold node_equation
    dsimp only
    rw [hfilter, kcl_foldlM_err nm yd node hyd (cm node) SExpr.cur0 eBad hfind]
  · intro g_nodes eqs h
    exact meStep_fold_ok_all cm nm yd g_nodes [] eqs h

/-- C8 witness: a one-terminal element at node `1` and a foreign-terminal
element at node `2` each abort with the construction error naming them. -/
theorem kcl_malformed_fatal_witness :
    node_equation connectedBad id ydictTot "1"
      = Except.error (NAError.tooFewNodes "X1")
    ∧ node_equation connectedBad id ydictTot "2"
      = Except.error (NAError.wrongNode "X2" "2") :=
  ⟨(kcl_malformed_fatal connectedBad id ydictTot (fun _ => rfl)).1 "1"
      ⟨"X1", "R", ["1"]⟩ (by decide) (by decide),
   (kcl_malformed_fatal connectedBad id ydictTot (fun _ => rfl)).1 "2"
      ⟨"X2", "R", ["3", "4"]⟩ (by decide) (by decide)⟩

theorem make_unknowns_keys (nl : List String) :
    (make_unknowns nl).map Prod.fst
      = nl.filter (fun n => !(startsWithStar n)) := by
  induction nl with
  | nil => rfl
  | cons m t ih =>
    by_cases hstar : startsWithStar m = true
    · simpa [make_unknowns, List.filterMap_cons, hstar, List.filter_cons]
        using ih
    · by_cases h0 : m = "0"
      · subst h0
        simpa [make_unknowns, List.filterMap_cons, hstar, List.filter_cons]
          using ih
      · simpa [make_unknowns, List.filterMap_cons, hstar, h0,
          List.filter_cons] using ih

theorem make_unknowns_lookup (nl : List String) :
    ∀ n ∈ nl, startsWithStar n = false →
      lookupA (make_unknowns nl) n
        = some (if n = "0" then SExpr.zero else SExpr.y n) := by
  induction nl with
  | nil => intro n hn; simp at hn
  | cons m t ih =>
    intro n hn hstar
    rcases List.mem_cons.mp hn with hm | hmem
    · subst hm
      by_cases h0 : n = "0" <;>
        simp [make_unknowns, List.filterMap_cons, hstar, h0, lookupA]
    · by_cases hms : startsWithStar m = true
      · simpa [make_unknowns, List.filterMap_cons, hms]
          using ih n hmem hstar
      · by_cases hmn : m = n
        · subst hmn
          by_cases h0 : m = "0" <;>
            simp [make_unknowns, List.filterMap_cons, hms, h0, lookupA]
        · by_cases h0 : m = "0"
          · subst h0
            simpa [make_unknowns, List.filterMap_cons, hms, lookupA, hmn]
              using ih n hmem hstar
          · simpa [make_unknowns, List.filterMap_cons, hms, h0, lookupA, hmn]
              using ih n hmem hstar

theorem meStep_fold_keys (cm : String → List Elt) (nm : String → String)
    (yd : String → Option SExpr) :
    ∀ (l : List String) (acc eqs : List (String × (SExpr × SExpr))),
      l.foldlM (meStep cm nm yd) acc = Except.ok eqs →
      eqs.map Prod.fst = acc.map Prod.fst
        ++ l.filter (fun n => (n != "0") && !(startsWithStar n)) := by
  intro l
  induction l with
  | nil =>
    intro acc eqs h
    have : acc = eqs := by simpa [List.foldlM, pure, Except.pure] using h
    subst this
    simp
  | cons m t ih =>
    intro acc eqs h
    rw [List.foldlM_cons] at h
    unfold meStep at h
    by_cases h0 : m = "0"
    · rw [if_pos h0] at h
      have h' : t.foldlM (meStep cm nm yd) acc = Except.ok eqs := h
      rw [ih acc eqs h']
      simp [h0, List.filter_cons]
    · by_cases hstar : startsWithStar m = true
      · rw [if_neg h0, if_pos hstar] at h
        have h' : t.foldlM (meStep cm nm yd) acc = Except.ok eqs := h
        rw [ih acc eqs h']
        simp [h0, hstar, List.filter_cons]
      · cases hne : node_equation cm nm yd m with
        | error e =>
          rw [if_neg h0, if_neg hstar, hne] at h
          exact Except.noConfusion h
        | ok pair =>
          rw [if_neg h0, if_neg hstar, hne] at h
          have h' : t.foldlM (meStep cm nm yd) (acc ++ [(m, pair)])
              = Except.ok eqs := h
          rw [ih _ eqs h']
          simp [h0, hstar, List.filter_cons]

/-- C3: the unknown-voltage dictionary has exactly one entry per node of
`cct.node_list`, skipping the dummy nodes (prefix `*`), with the reference
node `0` bound to the zero constant and every other node to its own voltage
symbol; and the equation dictionary has exactly one entry for every
non-reference, non-dummy node of the circuit graph, in order, and none for
`0` or for any dummy node. -/
theorem unknowns_and_equation_keys
    (node_list g_nodes : List String) (cm : String → List Elt)
    (nm : String → String) (yd : String → Option SExpr)
    (eqs : List (String × (SExpr × SExpr)))
    (hnl : node_list.Nodup) (hg : g_nodes.Nodup)
    (heq : make_equations g_nodes cm nm yd = Except.ok eqs) :
    (make_unknowns node_list).map Prod.fst
      = node_list.filter (fun n => !(startsWithStar n))
    ∧ ((make_unknowns node_list).map Prod.fst).Nodup
    ∧ (∀ n ∈ node_list, startsWithStar n = false →
        lookupA (make_unknowns node_list) n
          = some (if n = "0" then SExpr.zero else SExpr.y n))
    ∧ eqs.map Prod.fst
      = g_nodes.filter (fun n => (n != "0") && !(startsWithStar n))
    ∧ (eqs.map Prod.fst).Nodup := by
  have hkeys : eqs.map Prod.fst
      = g_nodes.filter (fun n => (n != "0") && !(startsWithStar n)) := by
    have h := meStep_fold_keys cm nm yd g_nodes [] eqs heq
    simpa using h
  refine ⟨make_unknowns_keys node_list, ?_, make_unknowns_lookup node_list,
    hkeys, ?_⟩
  · rw [make_unknowns_keys]
    exact hnl.filter _
  · rw [hkeys]
    exact hg.filter _

/-- C3 witness: node list with a dummy node `*c`, and the end-to-end
circuit's equations. -/
theorem unknowns_and_equation_keys_witness :
    (make_unknowns ["0", "1", "2", "*c"]).map Prod.fst
      = List.filter (fun n => !(startsWithStar n)) ["0", "1", "2", "*c"]
    ∧ lookupA (make_unknowns ["0", "1", "2", "*c"]) "0"
      = some (if "0" = "0" then SExpr.zero else SExpr.y "0")
    ∧ eqsEx.map Prod.fst
      = List.filter (fun n => (n != "0") && !(startsWithStar n))
        ["0", "1", "2"] :=
  have h := unknowns_and_equation_keys ["0", "1", "2", "*c"] ["0", "1", "2"]
    connectedEx id ydictEx eqsEx (by decide) (by decide) (by decide)
  ⟨h.1, h.2.2.1 "0" (by decide) rfl, h.2.2.2.1⟩

theorem cnodes_link_val_mem (cn : Cnodes) (n1 n2 z : String)
    (h : z ∈ cn.val n1 ∨ z ∈ cn.val n2) :
    (cn.link n1 n2).val z = cn.val n1 ++ cn.val n2 := by
  unfold Cnodes.link
  dsimp only
  rcases h with h1 | h2
  · by_cases hz : z ∈ (if n2 ∈ cn.val n1 then cn.val n1 ++ cn.val n2
        else cn.val n2)
    · rw [if_pos hz]
    · rw [if_neg hz, if_pos h1]
  · have hz : z ∈ (if n2 ∈ cn.val n1 then cn.val n1 ++ cn.val n2
        else cn.val n2) := by
      split
      · exact List.mem_append_right _ h2
      · exact h2
    rw [if_pos hz]

theorem cnodes_link_val_notmem (cn : Cnodes) (n1 n2 z : String)
    (h1 : z ∉ cn.val n1) (h2 : z ∉ cn.val n2) :
    (cn.link n1 n2).val z = cn.val z := by
  unfold Cnodes.link
  dsimp only
  have hz : z ∉ (if n2 ∈ cn.val n1 then cn.val n1 ++ cn.val n2
      else cn.val n2) := by
    split
    · intro hmem
      rcases List.mem_append.mp hmem with h | h
      · exact h1 h
      · exact h2 h
    · exact h2
  rw [if_neg hz, if_neg h1]

theorem cnodes_link_nodes (cn : Cnodes) (n1 n2 : String) :
    (cn.link n1 n2).nodes = cn.nodes := rfl

theorem cnodes_link_inv (cn : Cnodes) (hInv : cn.Inv) (x y : String)
    (hx : x ∈ cn.nodes) (hy : y ∈ cn.nodes) : (cn.link x y).Inv := by
  intro n hn
  rw [cnodes_link_nodes] at hn
  by_cases hcase : n ∈ cn.val x ∨ n ∈ cn.val y
  · rw [cnodes_link_val_mem cn x y n hcase]
    constructor
    · rcases hcase with h | h
      · exact List.mem_append_left _ h
      · exact List.mem_append_right _ h
    · intro m hm
      rw [cnodes_link_nodes]
      rcases List.mem_append.mp hm with h | h
      · exact ⟨((hInv x hx).2 m h).1, cnodes_link_val_mem cn x y m (Or.inl h)⟩
      · exact ⟨((hInv y hy).2 m h).1, cnodes_link_val_mem cn x y m (Or.inr h)⟩
  · push_neg at hcase
    rw [cnodes_link_val_notmem cn x y n hcase.1 hcase.2]
    have hInvn := hInv n hn
    refine ⟨hInvn.1, ?_⟩
    intro m hm
    have hmn := hInvn.2 m hm
    have hmx : m ∉ cn.val x := by
      intro hmx
      have hmeq : cn.val m = cn.val x := ((hInv x hx).2 m hmx).2
      have hnx : cn.val n = cn.val x := by rw [← hmn.2]; exact hmeq
      exact hcase.1 (hnx ▸ hInvn.1)
    have hmy : m ∉ cn.val y := by
      intro hmy
      have hmeq : cn.val m = cn.val y := ((hInv y hy).2 m hmy).2
      have hny : cn.val n = cn.val y := by rw [← hmn.2]; exact hmeq
      exact hcase.2 (hny ▸ hInvn.1)
    rw [cnodes_link_nodes, cnodes_link_val_notmem cn x y m hmx hmy]
    exact ⟨hmn.1, hmn.2⟩

/-- C5: merging of common-node sets is symmetric and transitive: on any
`Cnodes` satisfying the representation invariant, after `link a b` then
`link b c` the nodes `a`, `b`, `c` store one and the same class tuple,
every prior member of any of the three merged classes stores that same
updated tuple, and the invariant is preserved by every single `link` of two
keys — so the same holds along any sequence of links. -/
theorem cnodes_link_transitive (cn : Cnodes) (a b c : String)
    (hInv : cn.Inv) (ha : a ∈ cn.nodes) (hb : b ∈ cn.nodes)
    (hc : c ∈ cn.nodes) :
    (((cn.link a b).link b c).val a = ((cn.link a b).link b c).val b
      ∧ ((cn.link a b).link b c).val b = ((cn.link a b).link b c).val c)
    ∧ (∀ x, (x ∈ cn.val a ∨ x ∈ cn.val b ∨ x ∈ cn.val c) →
        ((cn.link a b).link b c).val x = ((cn.link a b).link b c).val a)
    ∧ (∀ x ∈ cn.nodes, ∀ y ∈ cn.nodes, (cn.link x y).Inv) := by
  have haa := (hInv a ha).1
  have hbb := (hInv b hb).1
  have hcc := (hInv c hc).1
  have h1a : (cn.link a b).val a = cn.val a ++ cn.val b :=
    cnodes_link_val_mem cn a b a (Or.inl haa)
  have h1b : (cn.link a b).val b = cn.val a ++ cn.val b :=
    cnodes_link_val_mem cn a b b (Or.inr hbb)
  have h1c : c ∈ (cn.link a b).val c := by
    by_cases hcase : c ∈ cn.val a ∨ c ∈ cn.val b
    · rw [cnodes_link_val_mem cn a b c hcase]
      rcases hcase with h | h
      · exact List.mem_append_left _ h
      · exact List.mem_append_right _ h
    · push_neg at hcase
      rw [cnodes_link_val_notmem cn a b c hcase.1 hcase.2]
      exact hcc
  have hmemab : a ∈ (cn.link a b).val b := by
    rw [h1b]
    exact List.mem_append_left _ haa
  have hmembb : b ∈ (cn.link a b).val b := by
    rw [h1b]
    exact List.mem_append_right _ hbb
  have h2a : ((cn.link a b).link b c).val a
      = (cn.link a b).val b ++ (cn.link a b).val c :=
    cnodes_link_val_mem (cn.link a b) b c a (Or.inl hmemab)
  have h2b : ((cn.link a b).link b c).val b
      = (cn.link a b).val b ++ (cn.link a b).val c :=
    cnodes_link_val_mem (cn.link a b) b c b (Or.inl hmembb)
  have h2c : ((cn.link a b).link b c).val c
      = (cn.link a b).val b ++ (cn.link a b).val c :=
    cnodes_link_val_mem (cn.link a b) b c c (Or.inr h1c)
  refine ⟨⟨h2a.trans h2b.symm, h2b.trans h2c.symm⟩, ?_, ?_⟩
  · intro x hx
    rcases hx with hxa | hxb | hxc
    · have hxm : x ∈ (cn.link a b).val b := by
        rw [h1b]
        exact List.mem_append_left _ hxa
      rw [cnodes_link_val_mem (cn.link a b) b c x (Or.inl hxm), h2a]
    · have hxm : x ∈ (cn.link a b).val b := by
        rw [h1b]
        exact List.mem_append_right _ hxb
      rw [cnodes_link_val_mem (cn.link a b) b c x (Or.inl hxm), h2a]
    · by_cases hcase : x ∈ cn.val a ∨ x ∈ cn.val b
      · have hxm : x ∈ (cn.link a b).val b := by
          rw [h1b]
          rcases hcase with h | h
          · exact List.mem_append_left _ h
          · exact List.mem_append_right _ h
        rw [cnodes_link_val_mem (cn.link a b) b c x (Or.inl hxm), h2a]
      · push_neg at hcase
        have hcnot : c ∉ cn.val a ∧ c ∉ cn.val b := by
          constructor
          · intro h
            have hceq : cn.val c = cn.val a := ((hInv a ha).2 c h).2
            exact hcase.1 (hceq ▸ hxc)
          · intro h
            have hceq : cn.val c = cn.val b := ((hInv b hb).2 c h).2
            exact hcase.2 (hceq ▸ hxc)
        have h1c' : (cn.link a b).val c = cn.val c :=
          cnodes_link_val_notmem cn a b c hcnot.1 hcnot.2
        have hxin : x ∈ (cn.link a b).val c := by
          rw [h1c']
          exact hxc
        rw [cnodes_link_val_mem (cn.link a b) b c x (Or.inr hxin), h2a]
  · intro x hx y hy
    exact cnodes_link_inv cn hInv x y hx hy

/-- C5 witness: three singleton classes linked pairwise. -/
theorem cnodes_link_transitive_witness :
    (Cnodes.init ["p", "q", "r"]).Inv
    ∧ (((Cnodes.init ["p", "q", "r"]).link "p" "q").link "q" "r").val "p"
      = (((Cnodes.init ["p", "q", "r"]).link "p" "q").link "q" "r").val "r" :=
  have h := cnodes_link_transitive (Cnodes.init ["p", "q", "r"]) "p" "q" "r"
    (by decide) (by decide) (by decide) (by decide)
  ⟨by decide, h.1.1.trans h.1.2⟩

theorem lookupA_appendEntry (es : GEntries) (k : GNode) (e : GNode × QR)
    (x : GNode) :
    lookupA (appendEntry es k e) x
      = (lookupA es x).map (fun l => if x = k then l ++ [e] else l) := by
  induction es with
  | nil => simp [appendEntry, lookupA]
  | cons p ps ih =>
    by_cases hp : p.1 = k
    · by_cases hpx : p.1 = x
      · have hxk : x = k := hpx ▸ hp
        simp [appendEntry, List.map_cons, lookupA, hp, hpx, hxk]
      · have hkx : ¬ k = x := fun hc => hpx (by rw [hp, hc])
        simp [appendEntry, List.map_cons, lookupA, hp, hpx, hkx] at ih ⊢
        exact ih
    · by_cases hpx : p.1 = x
      · have hxk : ¬ x = k := fun hc => hp (by rw [hpx, hc])
        simp [appendEntry, List.map_cons, lookupA, hp, hpx, hxk]
      · simp [appendEntry, List.map_cons, lookupA, hp, hpx] at ih ⊢
        exact ih

theorem lookupA_ensureKey (es : GEntries) (n x : GNode) :
    lookupA (ensureKey es n) x
      = match lookupA es x with
        | some l => some l
        | none => if n = x then some ([] : List (GNode × QR)) else none := by
  unfold ensureKey
  by_cases h : es.any (fun p => p.1 = n)
  · rw [if_pos h]
    cases hl : lookupA es x with
    | some l => simp
    | none =>
      by_cases hnx : n = x
      · subst hnx
        have hk : (lookupA es n).isSome := (hasKeyA_iff_lookupA es n).mp h
        rw [hl] at hk
        simp at hk
      · simp [hnx]
  · rw [if_neg h, lookupA_append]
    cases hl : lookupA es x with
    | some l => simp
    | none => simp [lookupA]

theorem QR.pos_num {s : QR} (h : (0 : QR) < s) : 0 < s.num := by
  have h' : (0 : Int) * (s.den : Int) < s.num * ((1 : Nat) : Int) := h
  simpa using h'

theorem QR.neg_num {s : QR} (h : s < (0 : QR)) : s.num < 0 := by
  have h' : s.num * ((1 : Nat) : Int) < (0 : Int) * (s.den : Int) := h
  simpa using h'

/-- C9: `Graph.add` obeys the sign convention: for a positive size the
pair `(n2, size)` is appended to the entry of key `n1` (the stored form of
a forward edge) with all other keys untouched except that a fresh `n2` key
gets an empty entry; and for a negative size the resulting dictionary state
— key set and every entry — is exactly that of `add n2 n1 (-size)`, i.e.
the edge reversed with its weight negated. -/
theorem graph_add_sign_convention (g : Graph) (n1 n2 : GNode) (s : QR) :
    ((0 : QR) < s →
      lookupA (g.add n1 n2 s).entries n1
        = some ((lookupA g.entries n1).getD [] ++ [(n2, s)])
      ∧ ∀ x, x ≠ n1 →
        lookupA (g.add n1 n2 s).entries x
          = match lookupA g.entries x with
            | some l => some l
            | none => if n2 = x then some [] else none)
    ∧ (s < (0 : QR) →
      (g.add n1 n2 s).name = (g.add n2 n1 (-s)).name
      ∧ ∀ x, lookupA (g.add n1 n2 s).entries x
          = lookupA (g.add n2 n1 (-s)).entries x) := by
  constructor
  · intro hpos
    have hnum := QR.pos_num hpos
    have hn0 : ¬ (s = 0) := by
      intro hc
      rw [hc] at hnum
      exact absurd hnum (by decide)
    have hnneg : ¬ (s < 0) := by
      intro hc
      have h2 := QR.neg_num hc
      omega
    unfold Graph.add
    rw [if_neg hn0, if_neg hnneg]
    constructor
    · rw [lookupA_appendEntry, lookupA_ensureKey, lookupA_ensureKey]
      cases hl : lookupA g.entries n1 with
      | some l => simp
      | none => simp
    · intro x hx
      rw [lookupA_appendEntry, lookupA_ensureKey, lookupA_ensureKey]
      have hx1 : ¬ (n1 = x) := fun hc => hx hc.symm
      cases hl : lookupA g.entries x with
      | some l => simp [hx]
      | none =>
        by_cases hnx : n2 = x <;> simp [hx1, hnx, hx]
  · intro hneg
    have hnum := QR.neg_num hneg
    have hn0 : ¬ (s = 0) := by
      intro hc
      rw [hc] at hnum
      exact absurd hnum (by decide)
    have hm0 : ¬ (-s = 0) := by
      intro hc
      have : (-s).num = 0 := by rw [hc]; rfl
      have hns : (-s).num = -s.num := rfl
      omega
    have hmneg : ¬ (-s < 0) := by
      intro hc
      have h2 := QR.neg_num hc
      have hns : (-s).num = -s.num := rfl
      omega
    unfold Graph.add
    rw [if_neg hn0, if_pos hneg, if_neg hm0, if_neg hmneg]
    refine ⟨rfl, ?_⟩
    intro x
    rw [lookupA_appendEntry, lookupA_appendEntry]
    have hsw : lookupA (ensureKey (ensureKey g.entries n1) n2) x
        = lookupA (ensureKey (ensureKey g.entries n2) n1) x := by
      rw [lookupA_ensureKey, lookupA_ensureKey, lookupA_ensureKey,
        lookupA_ensureKey]
      cases hl : lookupA g.entries x with
      | some l => rfl
      | none => by_cases h1 : n1 = x <;> by_cases h2 : n2 = x <;>
          simp [h1, h2]
    rw [hsw]

/-- C9 witness: the two conventions at sizes `1` and `-2` on an empty
graph. -/
theorem graph_add_sign_convention_witness :
    lookupA (((⟨"forward horizontal", []⟩ : Graph).add (GNode.rep ["a"])
        (GNode.rep ["b"]) 1).entries) (GNode.rep ["a"])
      = some ((lookupA ([] : GEntries) (GNode.rep ["a"])).getD []
          ++ [(GNode.rep ["b"], (1 : QR))])
    ∧ lookupA (((⟨"forward horizontal", []⟩ : Graph).add (GNode.rep ["a"])
        (GNode.rep ["b"]) (-2)).entries) (GNode.rep ["a"])
      = lookupA (((⟨"forward horizontal", []⟩ : Graph).add (GNode.rep ["b"])
        (GNode.rep ["a"]) (-(-2))).entries) (GNode.rep ["a"]) :=
  ⟨((graph_add_sign_convention ⟨"forward horizontal", []⟩ (GNode.rep ["a"])
      (GNode.rep ["b"]) 1).1 (by decide)).1,
   ((graph_add_sign_convention ⟨"forward horizontal", []⟩ (GNode.rep ["a"])
      (GNode.rep ["b"]) (-2)).2 (by decide)).2 (GNode.rep ["a"])⟩
